import Mathlib

/-!
Verification development for the exploratory-data-analysis script of the
ConnectPostgreSQL repository (src/lab2.2.py).

The script is embedded shallowly: a loaded table is a list of named columns,
each column a dtype together with a list of optional cell values (none models
a SQL NULL / pandas NaN).  Library calls of the script (pandas, scipy) are
translated by their documented semantics; the statistical tests themselves
(scipy.stats.f_oneway, scipy.stats.ttest_ind) are kept abstract as parameters,
since the script only builds their inputs and thresholds their p-value.
Machine floats are modelled by rationals; a float NaN is modelled by none.
-/

namespace NashvilleEDA

/-- A cell value of the loaded table: integer, floating-point or text. -/
inductive Value : Type
  | int (z : ℤ)
  | float (q : ℚ)
  | text (s : String)
  deriving DecidableEq, Repr

/-- Sort key used to model the total order pandas applies when it sorts
values of one column (mode series).  Values of different kinds never share a
well-typed column, so the kind tag only makes the order total. -/
def Value.key : Value → ℕ ×ₗ (ℚ ×ₗ String)
  | .int z => toLex (0, toLex ((z : ℚ), ""))
  | .float q => toLex (1, toLex (q, ""))
  | .text s => toLex (2, toLex (0, s))

instance : LinearOrder Value :=
  LinearOrder.lift' Value.key (by
    intro a b h
    cases a <;> cases b <;>
      simp only [Value.key, toLex_inj, Prod.mk.injEq] at h <;>
      simp_all)

/-- Numeric view of a value, as pandas uses it in numeric aggregation. -/
def Value.toQ? : Value → Option ℚ
  | .int z => some (z : ℚ)
  | .float q => some q
  | .text _ => none

/-- pandas storage dtypes the script distinguishes. -/
inductive Dtype : Type
  | int64
  | float64
  | obj
  | category
  deriving DecidableEq, Repr

/-- A column: storage dtype plus cell values (none is NULL/NaN). -/
structure Col where
  dtype : Dtype
  values : List (Option Value)
  deriving DecidableEq, Repr

/-- The in-memory table produced by pd.read_sql_query. -/
structure DataFrame where
  cols : List (String × Col)
  deriving DecidableEq, Repr

/-- df[name]: first column with the given name, none models a KeyError. -/
def DataFrame.col? (df : DataFrame) (name : String) : Option Col :=
  (df.cols.find? fun p => p.1 == name).map Prod.snd

/-- Drop the null cells of a column (Series.dropna). -/
def nonNull {β : Type} (xs : List (Option β)) : List β := xs.filterMap id

/-- Series.unique: the distinct values of a list in first-appearance order
(the head, then the distinct values of the tail other than the head). -/
def pdUnique {β : Type} [DecidableEq β] : List β → List β
  | [] => []
  | x :: rest => x :: (pdUnique rest).filter fun y => decide (y ≠ x)

/-- Worker of pd.factorize: codes the list against the categories seen so
far; a null cell receives the sentinel code -1, a value already seen its
first-appearance index, a new value the next free index. -/
def factorizeAux (seen : List Value) : List (Option Value) → List ℤ × List Value
  | [] => ([], seen)
  | none :: rest =>
    let r := factorizeAux seen rest
    (-1 :: r.1, r.2)
  | some v :: rest =>
    if v ∈ seen then
      let r := factorizeAux seen rest
      ((seen.indexOf v : ℤ) :: r.1, r.2)
    else
      let r := factorizeAux (seen ++ [v]) rest
      ((seen.length : ℤ) :: r.1, r.2)

/-- pd.factorize: integer codes in first-appearance order together with the
list of distinct original values (the uniques), nulls coded as -1. -/
def factorize (xs : List (Option Value)) : List ℤ × List Value :=
  factorizeAux [] xs

/-- Whether select_dtypes(['object', 'category']) picks the column. -/
def Dtype.isCategorical : Dtype → Bool
  | .obj => true
  | .category => true
  | _ => false

/-- df[col] = pd.factorize(df[col])[0] on one categorical column: the values
become the integer codes (dtype int64); other columns are left as they are. -/
def encodeCol (c : Col) : Col :=
  if c.dtype.isCategorical then
    Col.mk Dtype.int64 (((factorize c.values).1).map fun z => some (Value.int z))
  else c

/-- encode_categorical_variables: re-codes every categorical-dtype column in
place and returns the mutated table, logging one line per encoded column. -/
def encode_categorical_variables (df : DataFrame) : DataFrame × List String :=
  (DataFrame.mk (df.cols.map fun p => (p.1, encodeCol p.2)),
   df.cols.filterMap fun p =>
     if p.2.dtype.isCategorical then some ("Столбец " ++ p.1 ++ " закодирован") else none)

/-- Numeric cells of a column, as used by mean/median/quantile/var. -/
def Col.numValues (c : Col) : List (Option ℚ) :=
  c.values.map fun o => o.bind Value.toQ?

/-- Series.isnull().mean(): fraction of null cells; NaN (none) on an empty
column. -/
def missRate (xs : List (Option Value)) : Option ℚ :=
  if xs.length = 0 then none
  else some (((xs.filter fun o => decide (o = none)).length : ℚ) / (xs.length : ℚ))

/-- The non-null values of a numeric column in ascending order. -/
def sortedVals (xs : List (Option ℚ)) : List ℚ :=
  List.insertionSort (· ≤ ·) (nonNull xs)

/-- Series.quantile(q) with the default linear interpolation: with the
non-null values sorted ascending as v 0 .. v (n-1) and h = q * (n-1), the
result is v ⌊h⌋ + (h - ⌊h⌋) * (v (⌊h⌋+1) - v ⌊h⌋); NaN (none) when the
column has no non-null value. -/
def pdQuantile (xs : List (Option ℚ)) (q : ℚ) : Option ℚ :=
  let v := sortedVals xs
  if v.length = 0 then none
  else
    let h := q * ((v.length : ℚ) - 1)
    let j := (Int.floor h).toNat
    let g := h - (Int.floor h : ℚ)
    let lo := v.getD j 0
    let hi := v.getD (min (j + 1) (v.length - 1)) 0
    some (lo + g * (hi - lo))

/-- Series.mean() over the non-null values, NaN (none) if there are none. -/
def pdMean (xs : List (Option ℚ)) : Option ℚ :=
  let v := nonNull xs
  if v.length = 0 then none else some (v.sum / (v.length : ℚ))

/-- Series.var(): unbiased sample variance, NaN below two observations. -/
def pdVar (xs : List (Option ℚ)) : Option ℚ :=
  let v := nonNull xs
  if v.length < 2 then none
  else some ((v.map fun a => (a - v.sum / (v.length : ℚ)) ^ 2).sum / ((v.length : ℚ) - 1))

/-- Series.min() over the non-null values. -/
def pdMin (xs : List (Option ℚ)) : Option ℚ := (nonNull xs).min?

/-- Series.max() over the non-null values. -/
def pdMax (xs : List (Option ℚ)) : Option ℚ := (nonNull xs).max?

/-- The statistics one iteration of exploratory_analysis_numeric prints. -/
structure NumStats where
  missRate : Option ℚ
  vmax : Option ℚ
  vmin : Option ℚ
  mean : Option ℚ
  median : Option ℚ
  variance : Option ℚ
  q10 : Option ℚ
  q90 : Option ℚ
  q25 : Option ℚ
  q75 : Option ℚ
  deriving DecidableEq, Repr

/-- The body of the per-column try block of exploratory_analysis_numeric:
either the printed statistics, or the exception the column raises (missing
column, or a non-numeric column on which mean/median/var raise). -/
def numProfile (df : DataFrame) (col : String) : Except String NumStats :=
  match df.col? col with
  | none => Except.error ("KeyError: " ++ col)
  | some c =>
    if c.dtype.isCategorical then
      Except.error ("TypeError: could not convert string to float: " ++ col)
    else
      let xs := c.numValues
      Except.ok (NumStats.mk (missRate c.values) (pdMax xs) (pdMin xs) (pdMean xs)
        (pdQuantile xs (1 / 2)) (pdVar xs) (pdQuantile xs (1 / 10)) (pdQuantile xs (9 / 10))
        (pdQuantile xs (1 / 4)) (pdQuantile xs (3 / 4)))

/-- exploratory_analysis_numeric: per column, the try/except either yields
the report or catches and logs the error; the loop always continues. -/
def exploratory_analysis_numeric (df : DataFrame) :
    List String → List (String × Except String NumStats)
  | [] => []
  | c :: rest => (c, numProfile df c) :: exploratory_analysis_numeric df rest

/-- Series.mode()[0] step of the categorical profiler: the values attaining
the maximal frequency among the non-null cells, sorted ascending, first
element; none models the empty mode series of an all-null column. -/
def pdMode (xs : List (Option Value)) : Option Value :=
  let vs := nonNull xs
  let cands := (pdUnique vs).filter fun v => decide (∀ w ∈ vs, vs.count w ≤ vs.count v)
  (List.insertionSort (· ≤ ·) cands).head?

/-- The statistics one iteration of exploratory_analysis_categorical prints;
a none mode stands for the printed sentinel string "Нет моды". -/
structure CatStats where
  missRate : Option ℚ
  nunique : ℕ
  mode : Option Value
  deriving DecidableEq, Repr

/-- One loop iteration of exploratory_analysis_categorical: missing-rate,
distinct non-null count, mode; raises (error) on a missing column. -/
def catProfile (df : DataFrame) (col : String) : Except String CatStats :=
  match df.col? col with
  | none => Except.error ("KeyError: " ++ col)
  | some c =>
    Except.ok (CatStats.mk (missRate c.values) (pdUnique (nonNull c.values)).length
      (pdMode c.values))

/-- exploratory_analysis_categorical: the loop body has no try/except, so the
first raising column aborts the whole stage. -/
def exploratory_analysis_categorical (df : DataFrame) :
    List String → Except String (List (String × CatStats))
  | [] => Except.ok []
  | c :: rest =>
    match catProfile df c with
    | Except.error e => Except.error e
    | Except.ok st => (exploratory_analysis_categorical df rest).map fun l => (c, st) :: l

/-- analyze_dataset: df.shape, the row and column counts. -/
def analyze_dataset (df : DataFrame) : ℕ × ℕ :=
  (((df.cols.head?).map fun p => p.2.values.length).getD 0, df.cols.length)

/-- The scipy calls the hypothesis tester makes, kept abstract: each returns
the (statistic, p-value) pair of the documented test.  The Bool argument of
ttest_ind is its equal_var flag. -/
structure StatsLib where
  f_oneway : List (List Value) → ℚ × ℚ
  ttest_ind : List Value → List Value → Bool → ℚ × ℚ

/-- df[df[key] == v][col].dropna(): the non-null col cells of the rows whose
key cell equals v (a null key cell never equals v). -/
def maskDropna (key vals : List (Option Value)) (v : Value) : List Value :=
  ((key.zip vals).filter fun p => p.1 == some v).filterMap Prod.snd

/-- The group list built for the ANOVA: one group per element of
df['landuse'].unique() that is not null, in that order. -/
def testA_groups (lu sp : List (Option Value)) : List (List Value) :=
  (pdUnique lu).filterMap fun v? => v?.map fun v => maskDropna lu sp v

/-- The data test_hypotheses prints: the ANOVA groups and decision, and the
two t-test samples and decision. -/
structure HypResult where
  groupsA : List (List Value)
  rejectA : Bool
  vacant : List Value
  non_vacant : List Value
  rejectB : Bool

/-- test_hypotheses: Test A partitions sale prices by the distinct non-null
land-use values and runs one ANOVA over all groups (raising when fewer than
two groups exist); Test B splits acreage by soldasvacant == 1 / == 0 and runs
ttest_ind with equal_var = false.  Both reject exactly when p < 0.05. -/
def test_hypotheses (lib : StatsLib) (df : DataFrame) : Except String HypResult :=
  match df.col? "landuse", df.col? "saleprice" with
  | some lc, some sc =>
    let groups := testA_groups lc.values sc.values
    if groups.length < 2 then Except.error "TypeError: at least two inputs are required"
    else
      let pA := (lib.f_oneway groups).2
      match df.col? "soldasvacant", df.col? "acreage" with
      | some vc, some ac =>
        let vacant := maskDropna vc.values ac.values (Value.int 1)
        let non_vacant := maskDropna vc.values ac.values (Value.int 0)
        let pB := (lib.ttest_ind vacant non_vacant false).2
        Except.ok (HypResult.mk groups (decide (pA < 5 / 100)) vacant non_vacant
          (decide (pB < 5 / 100)))
      | _, _ => Except.error "KeyError: soldasvacant/acreage"
  | _, _ => Except.error "KeyError: landuse/saleprice"

/-- The groups of Test A as the specification words them: one group per
distinct non-null value of the land-use column, in first appearance order,
each group holding the non-null sale-price cells of the rows carrying that
land-use value.  Rows with a null land-use cell belong to no group. -/
def specGroupsA (lu sp : List (Option Value)) : List (List Value) :=
  (pdUnique (nonNull lu)).map fun v =>
    (lu.zip sp).filterMap fun p => if p.1 = some v then p.2 else none

/-- One group of Test B as the specification words it: the non-null acreage
cells of the rows whose sold-as-vacant flag equals the given integer. -/
def specGroupB (flag acre : List (Option Value)) (b : ℤ) : List Value :=
  (flag.zip acre).filterMap fun p => if p.1 = some (Value.int b) then p.2 else none

/-- One cell of the printed correlation series.  A Pearson coefficient
num / sqrt denomSq is represented exactly by the pair (num, denomSq) with
denomSq > 0, avoiding irrational square roots; the pandas NaN cell (zero
variance or fewer than two paired observations) is the none case of
Option CorrVal. -/
def CorrVal : Type := { p : ℚ × ℚ // 0 < p.2 }

instance : DecidableEq CorrVal := fun a b =>
  Subtype.instDecidableEq a b

/-- Rows where both columns are non-null (pandas pairwise-complete corr). -/
def pairedRows (xs ys : List (Option ℚ)) : List (ℚ × ℚ) :=
  (xs.zip ys).filterMap fun p =>
    match p with
    | (some a, some b) => some (a, b)
    | _ => none

/-- Arithmetic mean of a list of rationals (0 on the empty list, which the
correlation code only meets when its sums are all 0 anyway). -/
def listMean (l : List ℚ) : ℚ := l.sum / (l.length : ℚ)

/-- Centred cross-product sum of the paired rows. -/
def sXY (ps : List (ℚ × ℚ)) : ℚ :=
  (ps.map fun p =>
    (p.1 - listMean (ps.map Prod.fst)) * (p.2 - listMean (ps.map Prod.snd))).sum

/-- Centred square sum of the first coordinates of the paired rows. -/
def sXX (ps : List (ℚ × ℚ)) : ℚ :=
  (ps.map fun p => (p.1 - listMean (ps.map Prod.fst)) ^ 2).sum

/-- Centred square sum of the second coordinates of the paired rows. -/
def sYY (ps : List (ℚ × ℚ)) : ℚ :=
  (ps.map fun p => (p.2 - listMean (ps.map Prod.snd)) ^ 2).sum

/-- One entry of df.corr(): the Pearson coefficient of two columns over their
pairwise-complete rows, sXY / sqrt (sXX * sYY), as a CorrVal; none (NaN) when
the denominator vanishes. -/
def corrEntry (xs ys : List (Option ℚ)) : Option CorrVal :=
  if h : 0 < sXX (pairedRows xs ys) * sYY (pairedRows xs ys) then
    some ⟨(sXY (pairedRows xs ys), sXX (pairedRows xs ys) * sYY (pairedRows xs ys)), h⟩
  else none

/-- Order of two represented coefficients, a.1 / sqrt a.2 ≤ b.1 / sqrt b.2,
expressed without square roots by comparing signs and cross-multiplied
squares. -/
def corrLe (a b : CorrVal) : Prop :=
  (a.val.1 ≤ 0 ∧ 0 ≤ b.val.1) ∨
  (0 ≤ a.val.1 ∧ 0 ≤ b.val.1 ∧ a.val.1 ^ 2 * b.val.2 ≤ b.val.1 ^ 2 * a.val.2) ∨
  (a.val.1 ≤ 0 ∧ b.val.1 ≤ 0 ∧ b.val.1 ^ 2 * a.val.2 ≤ a.val.1 ^ 2 * b.val.2)

instance : DecidableRel corrLe := fun a b => by
  unfold corrLe
  infer_instance

/-- sort_values(ascending = False) comparison between series cells: a NaN
(none) cell sorts after every number, matching the default na_position. -/
def entryGe (x y : Option CorrVal) : Prop :=
  match x, y with
  | _, none => True
  | none, some _ => False
  | some a, some b => corrLe b a

instance entryGe.dec : (x y : Option CorrVal) → Decidable (entryGe x y)
  | none, none => isTrue trivial
  | some _, none => isTrue trivial
  | none, some _ => isFalse fun h => h
  | some a, some b => inferInstanceAs (Decidable (corrLe b a))

/-- The sorting relation on named correlation cells. -/
def entryRel (p q : String × Option CorrVal) : Prop := entryGe p.2 q.2

instance : DecidableRel entryRel := fun p q => entryGe.dec p.2 q.2

/-- Whether a printed correlation cell is the exact value 1.0 (in the
square-root-free representation: positive numerator whose square equals the
squared denominator). -/
def entryIsOne (e : Option CorrVal) : Prop :=
  ∃ c, e = some c ∧ 0 < c.val.1 ∧ c.val.1 ^ 2 = c.val.2

/-- select_dtypes(['float64', 'int64']): the numeric columns, in order. -/
def numericCols (df : DataFrame) : List (String × List (Option ℚ)) :=
  df.cols.filterMap fun p =>
    if p.2.dtype = Dtype.float64 ∨ p.2.dtype = Dtype.int64 then
      some (p.1, p.2.numValues)
    else none

/-- correlation_table: the target's column of the pairwise Pearson matrix of
the numeric columns, sorted descending by coefficient (NaN last); raises
(error) when the target is not a numeric column. -/
def correlation_table (df : DataFrame) (target : String) :
    Except String (List (String × Option CorrVal)) :=
  let numeric := numericCols df
  match numeric.lookup target with
  | none => Except.error ("KeyError: " ++ target)
  | some tv =>
    Except.ok (List.insertionSort entryRel (numeric.map fun p => (p.1, corrEntry tv p.2)))

/-- An open sqlalchemy engine, identified by its connection URL. -/
structure Engine where
  url : String
  deriving DecidableEq, Repr

/-- The connection URL the script builds. -/
def connUrl (host : String) (port : ℕ) (user password database : String) : String :=
  "postgresql://" ++ user ++ ":" ++ password ++ "@" ++ host ++ ":" ++ toString port ++
    "/" ++ database ++ "?client_encoding=utf8"

/-- connect_to_db: on success the engine and the success log; on any failure
of create_engine the error is printed and exit() is called, modelled by a
none first component: the function never hands a value back to its caller. -/
def connect_to_db (createEngine : String → Except String Engine)
    (host : String) (port : ℕ) (user password database : String) :
    Option Engine × List String :=
  match createEngine (connUrl host port user password database) with
  | Except.ok e => (some e, ["Подключение успешно"])
  | Except.error m => (none, ["Ошибка подключения: " ++ m])

/-- load_data: pd.read_sql_query on success; on failure the error is printed
and exit() is called (none first component). -/
def load_data (readSql : String → Engine → Except String DataFrame)
    (engine : Engine) (query : String) : Option DataFrame × List String :=
  match readSql query engine with
  | Except.ok df => (some df, ["Данные успешно загружены в DataFrame"])
  | Except.error m => (none, ["Ошибка выполнения запроса: " ++ m])

/-- The pipeline stages of the main block, in source order. -/
inductive StageTag : Type
  | connector
  | loader
  | encoder
  | shape
  | hypotheses
  | correlation
  deriving DecidableEq, Repr

/-- The literal query of the main block. -/
def theQuery : String := "SELECT * FROM \"Nashville_Housing\" LIMIT 1000"

/-- The main block: connect, load, encode, report shape, test hypotheses,
print the correlation table.  Returns the stages that actually ran and
whether exit() was called; an uncaught downstream exception also ends the
run, after its stage is entered. -/
def mainRun (createEngine : String → Except String Engine)
    (readSql : String → Engine → Except String DataFrame) (lib : StatsLib) :
    List StageTag × Bool :=
  match connect_to_db createEngine "povt-cluster.tstu.tver.ru" 5432 "mpi" "135a1" "db_housing" with
  | (none, _) => ([StageTag.connector], true)
  | (some engine, _) =>
    match load_data readSql engine theQuery with
    | (none, _) => ([StageTag.connector, StageTag.loader], true)
    | (some df, _) =>
      let df1 := (encode_categorical_variables df).1
      let _shape := analyze_dataset df1
      match test_hypotheses lib df1 with
      | Except.error _ =>
        ([StageTag.connector, StageTag.loader, StageTag.encoder, StageTag.shape,
          StageTag.hypotheses], false)
      | Except.ok _ =>
        match correlation_table df1 "saleprice" with
        | _ =>
          ([StageTag.connector, StageTag.loader, StageTag.encoder, StageTag.shape,
            StageTag.hypotheses, StageTag.correlation], false)

/-! ### Factorize invariants (Encoder) -/

theorem factorizeAux_spec :
    ∀ (xs : List (Option Value)) (seen : List Value), seen.Nodup →
      seen <+: (factorizeAux seen xs).2 ∧
      (factorizeAux seen xs).2.Nodup ∧
      (factorizeAux seen xs).1.length = xs.length ∧
      (∀ v ∈ (factorizeAux seen xs).2, v ∈ seen ∨ some v ∈ xs) ∧
      (∀ i, (hi : i < xs.length) →
        (xs.get ⟨i, hi⟩ = none → (factorizeAux seen xs).1.getD i 0 = -1) ∧
        (∀ v, xs.get ⟨i, hi⟩ = some v →
          v ∈ (factorizeAux seen xs).2 ∧
          (factorizeAux seen xs).1.getD i 0 = ((factorizeAux seen xs).2.indexOf v : ℤ))) := by
  intro xs
  induction xs with
  | nil =>
    intro seen h
    refine ⟨List.prefix_refl _, h, rfl, fun v hv => Or.inl hv, fun i hi => absurd hi (by simp)⟩
  | cons x rest ih =>
    intro seen h
    match x with
    | none =>
      obtain ⟨hpre, hnd, hlen, hmem, hrow⟩ := ih seen h
      simp only [factorizeAux]
      refine ⟨hpre, hnd, by simpa using hlen, ?_, ?_⟩
      · exact fun v hv => (hmem v hv).imp id (fun hx => List.mem_cons_of_mem _ hx)
      · intro i hi
        match i with
        | 0 => exact ⟨fun _ => rfl, fun v hv => by simp at hv⟩
        | i + 1 =>
          have hi' : i < rest.length := by simpa using hi
          refine ⟨fun hx => ?_, fun v hv => ?_⟩
          · simpa using (hrow i hi').1 (by simpa using hx)
          · simpa using (hrow i hi').2 v (by simpa using hv)
    | some v =>
      by_cases hv : v ∈ seen
      · obtain ⟨hpre, hnd, hlen, hmem, hrow⟩ := ih seen h
        simp only [factorizeAux, if_pos hv]
        have hpre2 := hpre
        obtain ⟨t, ht⟩ := hpre2
        refine ⟨hpre, hnd, by simpa using hlen, ?_, ?_⟩
        · exact fun w hw => (hmem w hw).imp id (fun hx => List.mem_cons_of_mem _ hx)
        · intro i hi
          match i with
          | 0 =>
            refine ⟨fun hx => by simp at hx, fun w hw => ?_⟩
            have hwv : w = v := by simpa using hw.symm
            subst hwv
            constructor
            · exact hpre.subset hv
            · have : (factorizeAux seen rest).2.indexOf w = seen.indexOf w := by
                rw [← ht, List.indexOf_append_of_mem hv]
              simp [this]
          | i + 1 =>
            have hi' : i < rest.length := by simpa using hi
            refine ⟨fun hx => ?_, fun w hw => ?_⟩
            · simpa using (hrow i hi').1 (by simpa using hx)
            · simpa using (hrow i hi').2 w (by simpa using hw)
      · have h' : (seen ++ [v]).Nodup := by
          refine h.append (List.nodup_singleton v) ?_
          intro a ha hb
          rw [List.mem_singleton] at hb
          subst hb
          exact hv ha
        obtain ⟨hpre, hnd, hlen, hmem, hrow⟩ := ih (seen ++ [v]) h'
        simp only [factorizeAux, if_neg hv]
        have hpre2 := hpre
        obtain ⟨t, ht⟩ := hpre2
        have hvmem : v ∈ (factorizeAux (seen ++ [v]) rest).2 :=
          hpre.subset (by simp)
        have hidx : (factorizeAux (seen ++ [v]) rest).2.indexOf v = seen.length := by
          rw [← ht, List.append_assoc, List.indexOf_append_of_not_mem hv]
          simp
        refine ⟨((List.prefix_append seen [v]).trans hpre), hnd, by simpa using hlen, ?_, ?_⟩
        · intro w hw
          rcases hmem w hw with hw' | hw'
          · rcases List.mem_append.mp hw' with hw'' | hw''
            · exact Or.inl hw''
            · rw [List.mem_singleton] at hw''
              subst hw''
              exact Or.inr (List.mem_cons_self _ _)
          · exact Or.inr (List.mem_cons_of_mem _ hw')
        · intro i hi
          match i with
          | 0 =>
            refine ⟨fun hx => by simp at hx, fun w hw => ?_⟩
            have hwv : w = v := by simpa using hw.symm
            subst hwv
            exact ⟨hvmem, by simp [hidx]⟩
          | i + 1 =>
            have hi' : i < rest.length := by simpa using hi
            refine ⟨fun hx => ?_, fun w hw => ?_⟩
            · simpa using (hrow i hi').1 (by simpa using hx)
            · simpa using (hrow i hi').2 w (by simpa using hw)

/-- C1: for every categorical column, factorize records a duplicate-free
label list drawn from the column, every null row receives the single
sentinel code -1, every non-null row receives a non-negative code smaller
than the label count, the code is exactly the first-seen index of the row's
value, mapping the code back through the label list reproduces the value,
and distinct labels receive distinct codes (a bijection onto 0..k-1). -/
theorem factorize_bijective_roundtrip (xs : List (Option Value)) :
    (factorize xs).2.Nodup ∧
    (factorize xs).1.length = xs.length ∧
    (∀ v ∈ (factorize xs).2, some v ∈ xs) ∧
    (∀ v w, v ∈ (factorize xs).2 → w ∈ (factorize xs).2 →
      (factorize xs).2.indexOf v = (factorize xs).2.indexOf w → v = w) ∧
    (∀ i, (hi : i < xs.length) →
      (xs.get ⟨i, hi⟩ = none → (factorize xs).1.getD i 0 = -1) ∧
      (∀ v, xs.get ⟨i, hi⟩ = some v →
        0 ≤ (factorize xs).1.getD i 0 ∧
        ((factorize xs).1.getD i 0).toNat < (factorize xs).2.length ∧
        (factorize xs).2.getD ((factorize xs).1.getD i 0).toNat (Value.int 0) = v ∧
        (factorize xs).1.getD i 0 = ((factorize xs).2.indexOf v : ℤ))) := by
  obtain ⟨_, hnd, hlen, hmem, hrow⟩ := factorizeAux_spec xs [] List.nodup_nil
  simp only [factorize]
  refine ⟨hnd, hlen, ?_, ?_, ?_⟩
  · intro v hv
    rcases hmem v hv with h | h
    · simp at h
    · exact h
  · intro v w hvm hwm hvw
    have hv' := List.indexOf_lt_length.mpr hvm
    have hw' := List.indexOf_lt_length.mpr hwm
    have h1 := List.indexOf_get (l := (factorizeAux [] xs).2) (a := v) hv'
    have h2 := List.indexOf_get (l := (factorizeAux [] xs).2) (a := w) hw'
    have h3 : (⟨List.indexOf v (factorizeAux [] xs).2, hv'⟩ :
        Fin (factorizeAux [] xs).2.length) = ⟨List.indexOf w (factorizeAux [] xs).2, hw'⟩ := by
      simp [hvw]
    rw [← h2, ← h3]
    exact h1.symm
  · intro i hi
    refine ⟨(hrow i hi).1, fun v hv => ?_⟩
    obtain ⟨hvm, hcode⟩ := (hrow i hi).2 v hv
    have hlt := List.indexOf_lt_length.mpr hvm
    refine ⟨by rw [hcode]; exact_mod_cast Nat.zero_le _, ?_, ?_, hcode⟩
    · rw [hcode]
      simpa using hlt
    · rw [hcode]
      simp only [Int.toNat_natCast]
      rw [List.getD_eq_getElem _ _ hlt]
      exact List.indexOf_get hlt

theorem factorize_bijective_roundtrip_witness :
    (factorize [some (Value.text "a"), none, some (Value.text "b"),
      some (Value.text "a")]).1.getD 1 0 = -1 ∧
    (factorize [some (Value.text "a"), none, some (Value.text "b"),
      some (Value.text "a")]).2.getD
        ((factorize [some (Value.text "a"), none, some (Value.text "b"),
          some (Value.text "a")]).1.getD 3 0).toNat (Value.int 0) = Value.text "a" := by
  have h := factorize_bijective_roundtrip
    [some (Value.text "a"), none, some (Value.text "b"), some (Value.text "a")]
  exact ⟨(h.2.2.2.2 1 (by decide)).1 (by decide),
    ((h.2.2.2.2 3 (by decide)).2 (Value.text "a") (by decide)).2.2.1⟩

/-! ### Profiler error-handling (Numeric vs Categorical) -/

/-- C4: the numeric profiler's loop wraps each column in try/except: a
column whose profiling raises is reported as a caught, logged error and the
loop still emits one report per remaining column, in order. -/
theorem numeric_profiler_isolates_failures :
    (∀ (df : DataFrame) (cols : List String),
      (exploratory_analysis_numeric df cols).map Prod.fst = cols) ∧
    (∀ (df : DataFrame) (c : String) (rest : List String) (e : String),
      numProfile df c = Except.error e →
      exploratory_analysis_numeric df (c :: rest) =
        (c, Except.error e) :: exploratory_analysis_numeric df rest) := by
  constructor
  · intro df cols
    induction cols with
    | nil => rfl
    | cons c rest ih => simp [exploratory_analysis_numeric, ih]
  · intro df c rest e he
    simp [exploratory_analysis_numeric, he]

theorem numeric_profiler_isolates_failures_witness :
    exploratory_analysis_numeric
        (DataFrame.mk [("ownername", Col.mk Dtype.obj [some (Value.text "x")])])
        ["ownername", "saleprice"] =
      ("ownername",
          Except.error "TypeError: could not convert string to float: ownername") ::
        exploratory_analysis_numeric
          (DataFrame.mk [("ownername", Col.mk Dtype.obj [some (Value.text "x")])])
          ["saleprice"] :=
  numeric_profiler_isolates_failures.2 _ "ownername" ["saleprice"] _ rfl

/-- C5: the categorical profiler's loop has no per-column try/except: as
soon as one column raises, the whole stage evaluates to that error, whatever
columns remain after it — none of them is processed. -/
theorem categorical_profiler_aborts :
    ∀ (df : DataFrame) (pre : List String) (c : String) (rest : List String) (e : String),
      (∀ p ∈ pre, ∃ st, catProfile df p = Except.ok st) →
      catProfile df c = Except.error e →
      exploratory_analysis_categorical df (pre ++ c :: rest) = Except.error e := by
  intro df pre
  induction pre with
  | nil =>
    intro c rest e _ he
    simp [exploratory_analysis_categorical, he]
  | cons p pre ih =>
    intro c rest e hpre he
    obtain ⟨st, hst⟩ := hpre p (List.mem_cons_self _ _)
    have htail := ih c rest e (fun q hq => hpre q (List.mem_cons_of_mem _ hq)) he
    simp only [List.cons_append, exploratory_analysis_categorical, hst, List.append_eq, htail]
    rfl

theorem categorical_profiler_aborts_witness :
    exploratory_analysis_categorical
        (DataFrame.mk [("landuse", Col.mk Dtype.obj [some (Value.text "x")])])
        (["landuse"] ++ "taxdistrict" :: ["ownername"]) =
      Except.error "KeyError: taxdistrict" :=
  categorical_profiler_aborts _ ["landuse"] "taxdistrict" ["ownername"] _
    (by
      intro p hp
      have hp' : p = "landuse" := by simpa using hp
      subst hp'
      exact ⟨_, rfl⟩)
    rfl

/-! ### Mode (Categorical profiler) -/

theorem pdUnique_mem {β : Type} [DecidableEq β] :
    ∀ (l : List β) (a : β), a ∈ pdUnique l ↔ a ∈ l := by
  intro l
  induction l with
  | nil => simp [pdUnique]
  | cons x rest ih =>
    intro a
    by_cases hax : a = x
    · subst hax
      simp [pdUnique]
    · simp [pdUnique, List.mem_filter, hax, ih]

theorem exists_argmax {β : Type} (f : β → ℕ) :
    ∀ (l : List β), l ≠ [] → ∃ v ∈ l, ∀ w ∈ l, f w ≤ f v := by
  intro l
  induction l with
  | nil => simp
  | cons a l ih =>
    intro _
    rcases eq_or_ne l [] with rfl | hl
    · exact ⟨a, by simp, by simp⟩
    · obtain ⟨v, hv, hmax⟩ := ih hl
      by_cases hc : f v ≤ f a
      · refine ⟨a, by simp, fun w hw => ?_⟩
        rcases List.mem_cons.mp hw with rfl | hw'
        · exact le_refl _
        · exact (hmax w hw').trans hc
      · refine ⟨v, List.mem_cons_of_mem _ hv, fun w hw => ?_⟩
        rcases List.mem_cons.mp hw with rfl | hw'
        · exact le_of_lt (lt_of_not_le hc)
        · exact hmax w hw'

/-- C10: whenever the column has a non-null value, the reported mode is a
most frequent value and, under ties, the least such value in sort order (the
first element of the ascending-sorted mode series); the sentinel (none,
printed as "Нет моды") appears exactly for columns with no non-null value. -/
theorem mode_deterministic_under_ties (xs : List (Option Value)) :
    (nonNull xs = [] → pdMode xs = none) ∧
    (nonNull xs ≠ [] → ∃ m, pdMode xs = some m ∧ m ∈ nonNull xs ∧
      (∀ w ∈ nonNull xs, (nonNull xs).count w ≤ (nonNull xs).count m) ∧
      (∀ c ∈ nonNull xs,
        (∀ w ∈ nonNull xs, (nonNull xs).count w ≤ (nonNull xs).count c) → m ≤ c)) := by
  constructor
  · intro h
    simp [pdMode, h, pdUnique]
  · intro h
    obtain ⟨v₀, hv₀, hmax₀⟩ := exists_argmax ((nonNull xs).count ·) (nonNull xs) h
    have hcand : v₀ ∈ (pdUnique (nonNull xs)).filter
        fun v => decide (∀ w ∈ nonNull xs, (nonNull xs).count w ≤ (nonNull xs).count v) := by
      rw [List.mem_filter]
      exact ⟨(pdUnique_mem _ _).mpr hv₀, by simpa using hmax₀⟩
    set cands := (pdUnique (nonNull xs)).filter
      fun v => decide (∀ w ∈ nonNull xs, (nonNull xs).count w ≤ (nonNull xs).count v)
      with hcands
    have hsm : ∀ a, a ∈ List.insertionSort (· ≤ ·) cands ↔ a ∈ cands := by
      intro a
      exact List.mem_insertionSort _
    have hne : List.insertionSort (· ≤ ·) cands ≠ [] := by
      intro hemp
      rw [← hsm v₀] at hcand
      rw [hemp] at hcand
      simp at hcand
    obtain ⟨m, tl, hmtl⟩ := List.exists_cons_of_ne_nil hne
    have hsorted := List.sorted_insertionSort (· ≤ ·) cands
    rw [hmtl] at hsorted
    have hmode : pdMode xs = some m := by
      simp only [pdMode, ← hcands, hmtl, List.head?_cons]
    have hmcand : m ∈ cands := by
      rw [← hsm]
      rw [hmtl]
      exact List.mem_cons_self _ _
    rw [List.mem_filter] at hmcand
    refine ⟨m, hmode, (pdUnique_mem _ _).mp hmcand.1, by simpa using hmcand.2, ?_⟩
    intro c hc hcmax
    have hccand : c ∈ cands := by
      rw [hcands, List.mem_filter]
      exact ⟨(pdUnique_mem _ _).mpr hc, by simpa using hcmax⟩
    rw [← hsm, hmtl] at hccand
    rcases List.mem_cons.mp hccand with rfl | hc'
    · exact le_refl _
    · exact List.rel_of_sorted_cons hsorted c hc'

theorem mode_deterministic_under_ties_witness :
    pdMode [some (Value.int 2), some (Value.int 1), none,
      some (Value.int 1), some (Value.int 2)] = some (Value.int 1) := by
  obtain ⟨m, hm, hmem, -, hmin⟩ :=
    (mode_deterministic_under_ties [some (Value.int 2), some (Value.int 1), none,
      some (Value.int 1), some (Value.int 2)]).2 (by decide)
  rw [hm]
  have hma : m ≤ Value.int 1 := hmin (Value.int 1) (by decide) (by decide)
  have hcases : m = Value.int 2 ∨ m = Value.int 1 ∨ m = Value.int 2 := by
    simpa [nonNull] using hmem
  rcases hcases with rfl | rfl | rfl
  · exact absurd hma (by decide)
  · rfl
  · exact absurd hma (by decide)

/-! ### Hypothesis tester: group construction -/

theorem filterMap_map_option {β γ : Type} (f : β → γ) :
    ∀ (l : List (Option β)),
      (l.filterMap fun v? => v?.map f) = (nonNull l).map f := by
  intro l
  induction l with
  | nil => rfl
  | cons x rest ih =>
    cases x <;> simp [nonNull, List.filterMap_cons, ih]

theorem nonNull_filter_ne_none {β : Type} [DecidableEq β] :
    ∀ (l : List (Option β)),
      nonNull (l.filter fun y => decide (y ≠ none)) = nonNull l := by
  intro l
  induction l with
  | nil => rfl
  | cons x rest ih =>
    cases x <;> simp [nonNull, List.filter_cons, List.filterMap_cons] at ih ⊢ <;> exact ih

theorem nonNull_filter_ne_some {β : Type} [DecidableEq β] (v : β) :
    ∀ (l : List (Option β)),
      nonNull (l.filter fun y => decide (y ≠ some v)) =
        (nonNull l).filter fun y => decide (y ≠ v) := by
  intro l
  induction l with
  | nil => rfl
  | cons x rest ih =>
    match x with
    | none => simpa [nonNull, List.filter_cons, List.filterMap_cons] using ih
    | some w =>
      by_cases hw : w = v
      · subst hw
        simpa [nonNull, List.filter_cons, List.filterMap_cons] using ih
      · simpa [nonNull, List.filter_cons, List.filterMap_cons, hw] using ih

theorem nonNull_pdUnique {β : Type} [DecidableEq β] :
    ∀ (l : List (Option β)), nonNull (pdUnique l) = pdUnique (nonNull l) := by
  intro l
  induction l with
  | nil => rfl
  | cons x rest ih =>
    match x with
    | none =>
      calc nonNull (pdUnique (none :: rest))
          = nonNull ((pdUnique rest).filter fun y => decide (y ≠ none)) := by
            simp [pdUnique, nonNull, List.filterMap_cons]
        _ = nonNull (pdUnique rest) := nonNull_filter_ne_none _
        _ = pdUnique (nonNull rest) := ih
        _ = pdUnique (nonNull (none :: rest)) := by
            simp [nonNull, List.filterMap_cons]
    | some v =>
      calc nonNull (pdUnique (some v :: rest))
          = v :: nonNull ((pdUnique rest).filter fun y => decide (y ≠ some v)) := by
            simp [pdUnique, nonNull, List.filterMap_cons]
        _ = v :: (nonNull (pdUnique rest)).filter (fun y => decide (y ≠ v)) := by
            rw [nonNull_filter_ne_some]
        _ = v :: (pdUnique (nonNull rest)).filter (fun y => decide (y ≠ v)) := by
            rw [ih]
        _ = pdUnique (nonNull (some v :: rest)) := by
            simp [pdUnique, nonNull, List.filterMap_cons]

theorem maskDropna_eq_spec (key vals : List (Option Value)) (v : Value) :
    maskDropna key vals v =
      (key.zip vals).filterMap fun p => if p.1 = some v then p.2 else none := by
  unfold maskDropna
  induction key.zip vals with
  | nil => rfl
  | cons p rest ih =>
    obtain ⟨a, b⟩ := p
    by_cases hp : a = some v
    · cases b <;> simp [List.filter_cons, List.filterMap_cons, ih, beq_iff_eq, hp]
    · simp [List.filter_cons, List.filterMap_cons, ih, beq_iff_eq, hp]

theorem testA_groups_eq_spec (lu sp : List (Option Value)) :
    testA_groups lu sp = specGroupsA lu sp := by
  unfold testA_groups specGroupsA
  rw [filterMap_map_option, nonNull_pdUnique]
  exact List.map_congr_left fun v _ => maskDropna_eq_spec lu sp v

theorem test_hypotheses_unfold (lib : StatsLib) (df : DataFrame) (lc sc vc ac : Col)
    (h1 : df.col? "landuse" = some lc) (h2 : df.col? "saleprice" = some sc)
    (h3 : df.col? "soldasvacant" = some vc) (h4 : df.col? "acreage" = some ac)
    (hlen : 2 ≤ (testA_groups lc.values sc.values).length) :
    test_hypotheses lib df = Except.ok
      (HypResult.mk (testA_groups lc.values sc.values)
        (decide ((lib.f_oneway (testA_groups lc.values sc.values)).2 < 5 / 100))
        (maskDropna vc.values ac.values (Value.int 1))
        (maskDropna vc.values ac.values (Value.int 0))
        (decide ((lib.ttest_ind (maskDropna vc.values ac.values (Value.int 1))
          (maskDropna vc.values ac.values (Value.int 0)) false).2 < 5 / 100))) := by
  simp only [test_hypotheses, h1, h2, h3, h4]
  rw [if_neg (by omega)]

/-- C2: the ANOVA's input is exactly one group per distinct non-null
land-use value (null land-use rows belong to no group), each group the
non-null sale prices of its rows; all groups go into the single f_oneway
call, and the tester rejects exactly when the returned p-value is below
0.05. -/
theorem testA_partition_and_decision :
    (∀ (lu sp : List (Option Value)), testA_groups lu sp = specGroupsA lu sp) ∧
    (∀ (lib : StatsLib) (df : DataFrame) (lc sc vc ac : Col),
      df.col? "landuse" = some lc → df.col? "saleprice" = some sc →
      df.col? "soldasvacant" = some vc → df.col? "acreage" = some ac →
      2 ≤ (testA_groups lc.values sc.values).length →
      ∃ r, test_hypotheses lib df = Except.ok r ∧
        r.groupsA = specGroupsA lc.values sc.values ∧
        (r.rejectA = true ↔ (lib.f_oneway (specGroupsA lc.values sc.values)).2 < 5 / 100)) := by
  refine ⟨testA_groups_eq_spec, ?_⟩
  intro lib df lc sc vc ac h1 h2 h3 h4 hlen
  refine ⟨_, test_hypotheses_unfold lib df lc sc vc ac h1 h2 h3 h4 hlen, ?_, ?_⟩
  · exact testA_groups_eq_spec _ _
  · rw [← testA_groups_eq_spec]
    exact decide_eq_true_iff

theorem testA_partition_and_decision_witness :
    ∃ r, test_hypotheses
        (StatsLib.mk (fun _ => (1, 1 / 100)) (fun _ _ _ => (1, 1 / 2)))
        (DataFrame.mk
          [("landuse", Col.mk Dtype.obj [some (Value.text "A"), some (Value.text "B")]),
           ("saleprice", Col.mk Dtype.int64 [some (Value.int 100), some (Value.int 200)]),
           ("soldasvacant", Col.mk Dtype.int64 [some (Value.int 1), some (Value.int 0)]),
           ("acreage", Col.mk Dtype.float64 [some (Value.float 1), some (Value.float 5)])]) =
        Except.ok r ∧
      r.groupsA = specGroupsA
        [some (Value.text "A"), some (Value.text "B")]
        [some (Value.int 100), some (Value.int 200)] ∧
      (r.rejectA = true ↔
        ((StatsLib.mk (fun _ => ((1 : ℚ), (1 : ℚ) / 100))
            (fun _ _ _ => (1, 1 / 2))).f_oneway
          (specGroupsA [some (Value.text "A"), some (Value.text "B")]
            [some (Value.int 100), some (Value.int 200)])).2 < 5 / 100) :=
  testA_partition_and_decision.2 _ _
    (Col.mk Dtype.obj [some (Value.text "A"), some (Value.text "B")])
    (Col.mk Dtype.int64 [some (Value.int 100), some (Value.int 200)])
    (Col.mk Dtype.int64 [some (Value.int 1), some (Value.int 0)])
    (Col.mk Dtype.float64 [some (Value.float 1), some (Value.float 5)])
    rfl rfl rfl rfl (by decide)

/-- C7: Test B's two samples are exactly the non-null acreage values of the
rows whose sold-as-vacant flag equals 1, respectively 0; they go to
ttest_ind with equal_var = false (Welch), and the tester rejects exactly
when the returned p-value is below the fixed threshold 0.05. -/
theorem testB_groups_and_decision :
    ∀ (lib : StatsLib) (df : DataFrame) (lc sc vc ac : Col),
      df.col? "landuse" = some lc → df.col? "saleprice" = some sc →
      df.col? "soldasvacant" = some vc → df.col? "acreage" = some ac →
      2 ≤ (testA_groups lc.values sc.values).length →
      ∃ r, test_hypotheses lib df = Except.ok r ∧
        r.vacant = specGroupB vc.values ac.values 1 ∧
        r.non_vacant = specGroupB vc.values ac.values 0 ∧
        (r.rejectB = true ↔
          (lib.ttest_ind (specGroupB vc.values ac.values 1)
            (specGroupB vc.values ac.values 0) false).2 < 5 / 100) := by
  intro lib df lc sc vc ac h1 h2 h3 h4 hlen
  refine ⟨_, test_hypotheses_unfold lib df lc sc vc ac h1 h2 h3 h4 hlen, ?_, ?_, ?_⟩
  · exact maskDropna_eq_spec _ _ _
  · exact maskDropna_eq_spec _ _ _
  · rw [show specGroupB vc.values ac.values 1 =
        maskDropna vc.values ac.values (Value.int 1) from (maskDropna_eq_spec _ _ _).symm,
      show specGroupB vc.values ac.values 0 =
        maskDropna vc.values ac.values (Value.int 0) from (maskDropna_eq_spec _ _ _).symm]
    exact decide_eq_true_iff

theorem testB_groups_and_decision_witness :
    ∃ r, test_hypotheses
        (StatsLib.mk (fun _ => (1, 1 / 100)) (fun _ _ _ => (1, 1 / 2)))
        (DataFrame.mk
          [("landuse", Col.mk Dtype.obj [some (Value.text "A"), some (Value.text "B")]),
           ("saleprice", Col.mk Dtype.int64 [some (Value.int 100), some (Value.int 200)]),
           ("soldasvacant", Col.mk Dtype.int64 [some (Value.int 1), some (Value.int 0)]),
           ("acreage", Col.mk Dtype.float64 [some (Value.float 1), some (Value.float 5)])]) =
        Except.ok r ∧
      r.vacant = specGroupB [some (Value.int 1), some (Value.int 0)]
        [some (Value.float 1), some (Value.float 5)] 1 ∧
      r.non_vacant = specGroupB [some (Value.int 1), some (Value.int 0)]
        [some (Value.float 1), some (Value.float 5)] 0 ∧
      (r.rejectB = true ↔
        ((StatsLib.mk (fun _ => ((1 : ℚ), (1 : ℚ) / 100))
            (fun _ _ _ => (1, 1 / 2))).ttest_ind
          (specGroupB [some (Value.int 1), some (Value.int 0)]
            [some (Value.float 1), some (Value.float 5)] 1)
          (specGroupB [some (Value.int 1), some (Value.int 0)]
            [some (Value.float 1), some (Value.float 5)] 0) false).2 < 5 / 100) :=
  testB_groups_and_decision _ _
    (Col.mk Dtype.obj [some (Value.text "A"), some (Value.text "B")])
    (Col.mk Dtype.int64 [some (Value.int 100), some (Value.int 200)])
    (Col.mk Dtype.int64 [some (Value.int 1), some (Value.int 0)])
    (Col.mk Dtype.float64 [some (Value.float 1), some (Value.float 5)])
    rfl rfl rfl rfl (by decide)

/-! ### Connector / Loader fatality and the Encoder frame -/

/-- C3: a failing create_engine or read_sql_query is logged and ends the
process: the function yields no engine / no table to its caller (none), and
the main pipeline stops at that stage — no later stage appears in the list
of executed stages. -/
theorem connector_loader_fatal :
    (∀ (ce : String → Except String Engine) (host : String) (port : ℕ)
        (user pw db m : String),
      ce (connUrl host port user pw db) = Except.error m →
      connect_to_db ce host port user pw db = (none, ["Ошибка подключения: " ++ m])) ∧
    (∀ (rs : String → Engine → Except String DataFrame) (eng : Engine) (q m : String),
      rs q eng = Except.error m →
      load_data rs eng q = (none, ["Ошибка выполнения запроса: " ++ m])) ∧
    (∀ (ce : String → Except String Engine) (rs : String → Engine → Except String DataFrame)
        (lib : StatsLib) (m : String),
      ce (connUrl "povt-cluster.tstu.tver.ru" 5432 "mpi" "135a1" "db_housing") =
        Except.error m →
      mainRun ce rs lib = ([StageTag.connector], true)) ∧
    (∀ (ce : String → Except String Engine) (rs : String → Engine → Except String DataFrame)
        (lib : StatsLib) (eng : Engine) (m : String),
      ce (connUrl "povt-cluster.tstu.tver.ru" 5432 "mpi" "135a1" "db_housing") =
        Except.ok eng →
      rs theQuery eng = Except.error m →
      mainRun ce rs lib = ([StageTag.connector, StageTag.loader], true)) := by
  refine ⟨?_, ?_, ?_, ?_⟩
  · intro ce host port user pw db m hm
    simp [connect_to_db, hm]
  · intro rs eng q m hm
    simp [load_data, hm]
  · intro ce rs lib m hm
    simp [mainRun, connect_to_db, hm]
  · intro ce rs lib eng m hok hm
    simp [mainRun, connect_to_db, load_data, hok, hm]

theorem connector_loader_fatal_witness :
    mainRun (fun _ => Except.error "connection refused")
        (fun _ _ => Except.error "no table")
        (StatsLib.mk (fun _ => (1, 1)) (fun _ _ _ => (1, 1))) =
      ([StageTag.connector], true) ∧
    mainRun (fun u => Except.ok (Engine.mk u))
        (fun _ _ => Except.error "no table")
        (StatsLib.mk (fun _ => (1, 1)) (fun _ _ _ => (1, 1))) =
      ([StageTag.connector, StageTag.loader], true) :=
  ⟨connector_loader_fatal.2.2.1 _ _ _ "connection refused" rfl,
   connector_loader_fatal.2.2.2 _ _ _ _ "no table" rfl rfl⟩

/-- C9: the Encoder keeps the column list's length and names, replaces the
values of every categorical-dtype column by the factorize integer codes
(dtype becoming int64), and leaves every other column exactly as it was;
it hands the mutated table back as its first component.  (All other stages
of the embedding are read-only functions of the table: they return printed
reports, never a table, so only the Encoder's output ever replaces df.) -/
theorem encoder_only_mutation (df : DataFrame) :
    (encode_categorical_variables df).1.cols.length = df.cols.length ∧
    (∀ i, i < df.cols.length →
      (encode_categorical_variables df).1.cols.getD i ("", Col.mk Dtype.int64 []) =
        ((df.cols.getD i ("", Col.mk Dtype.int64 [])).1,
         if (df.cols.getD i ("", Col.mk Dtype.int64 [])).2.dtype.isCategorical then
           Col.mk Dtype.int64
             ((factorize (df.cols.getD i ("", Col.mk Dtype.int64 [])).2.values).1.map
               fun z => some (Value.int z))
         else (df.cols.getD i ("", Col.mk Dtype.int64 [])).2)) := by
  constructor
  · simp [encode_categorical_variables]
  · intro i hi
    have hi' : i < (df.cols.map fun p => (p.1, encodeCol p.2)).length := by
      simpa using hi
    rw [show (encode_categorical_variables df).1.cols =
      df.cols.map fun p => (p.1, encodeCol p.2) from rfl]
    rw [List.getD_eq_getElem _ _ hi', List.getD_eq_getElem _ _ hi, List.getElem_map]
    by_cases hc : (df.cols[i]).2.dtype.isCategorical
    · simp [encodeCol, hc]
    · simp [encodeCol, hc]

theorem encoder_only_mutation_witness :
    (encode_categorical_variables (DataFrame.mk
        [("landuse", Col.mk Dtype.obj [some (Value.text "R"), some (Value.text "R")]),
         ("saleprice", Col.mk Dtype.int64 [some (Value.int 7), some (Value.int 9)])])).1.cols.getD
        1 ("", Col.mk Dtype.int64 []) =
      ("saleprice", Col.mk Dtype.int64 [some (Value.int 7), some (Value.int 9)]) := by
  have h := (encoder_only_mutation (DataFrame.mk
    [("landuse", Col.mk Dtype.obj [some (Value.text "R"), some (Value.text "R")]),
     ("saleprice", Col.mk Dtype.int64 [some (Value.int 7), some (Value.int 9)])])).2
    1 (by decide)
  rw [h]
  rfl

/-! ### Numeric profiler: ordering of the reported statistics -/

theorem sorted_getD_mono {l : List ℚ} (hs : List.Sorted (· ≤ ·) l) {i k : ℕ}
    (hik : i ≤ k) (hk : k < l.length) : l.getD i 0 ≤ l.getD k 0 := by
  have hi : i < l.length := lt_of_le_of_lt hik hk
  rw [List.getD_eq_getElem _ _ hi, List.getD_eq_getElem _ _ hk]
  exact hs.rel_get_of_le (show (⟨i, hi⟩ : Fin l.length) ≤ ⟨k, hk⟩ from hik)

theorem getD_mem_of_lt {l : List ℚ} {i : ℕ} (hi : i < l.length) : l.getD i 0 ∈ l := by
  rw [List.getD_eq_getElem _ _ hi]
  exact l.getElem_mem hi

theorem min?_le_all {l : List ℚ} {m : ℚ} (h : l.min? = some m) : ∀ b ∈ l, m ≤ b := by
  haveI : Std.Antisymm ((· : ℚ) ≤ ·) := ⟨fun u v => le_antisymm u v⟩
  exact ((List.min?_eq_some_iff (fun a => le_refl a) (fun a b => min_choice a b)
    (fun a b c => le_min_iff)).mp h).2

theorem le_max?_all {l : List ℚ} {M : ℚ} (h : l.max? = some M) : ∀ b ∈ l, b ≤ M := by
  haveI : Std.Antisymm ((· : ℚ) ≤ ·) := ⟨fun u v => le_antisymm u v⟩
  exact ((List.max?_eq_some_iff (fun a => le_refl a) (fun a b => max_choice a b)
    (fun a b c => max_le_iff)).mp h).2

theorem sortedVals_sorted (xs : List (Option ℚ)) : List.Sorted (· ≤ ·) (sortedVals xs) :=
  List.sorted_insertionSort _ _

theorem sortedVals_mem (xs : List (Option ℚ)) (a : ℚ) :
    a ∈ sortedVals xs ↔ a ∈ nonNull xs :=
  List.mem_insertionSort _

theorem quantile_index_facts (q : ℚ) (n : ℕ) (h0 : 0 ≤ q) (h1 : q ≤ 1) (hn : 1 ≤ n) :
    (Int.floor (q * ((n : ℚ) - 1))).toNat ≤ n - 1 ∧
    0 ≤ q * ((n : ℚ) - 1) - (Int.floor (q * ((n : ℚ) - 1)) : ℚ) ∧
    q * ((n : ℚ) - 1) - (Int.floor (q * ((n : ℚ) - 1)) : ℚ) < 1 := by
  have hn1 : (0 : ℚ) ≤ (n : ℚ) - 1 := by
    have h : (1 : ℚ) ≤ (n : ℚ) := by exact_mod_cast hn
    linarith
  have hq0 : 0 ≤ q * ((n : ℚ) - 1) := mul_nonneg h0 hn1
  have hle : q * ((n : ℚ) - 1) ≤ (n : ℚ) - 1 := by nlinarith
  refine ⟨?_, ?_, ?_⟩
  · have hcast : (n : ℚ) - 1 = ((n - 1 : ℕ) : ℚ) := by
      rw [Nat.cast_sub hn]
      norm_num
    have hle2 : q * ((n : ℚ) - 1) ≤ ((n - 1 : ℕ) : ℚ) := by
      rw [← hcast]
      exact hle
    have hfl : Int.floor (q * ((n : ℚ) - 1)) ≤ ((n - 1 : ℕ) : ℤ) := by
      have hmono := Int.floor_mono hle2
      rwa [Int.floor_natCast] at hmono
    exact Int.toNat_le.mpr hfl
  · have := Int.floor_le (q * ((n : ℚ) - 1))
    linarith
  · have := Int.lt_floor_add_one (q * ((n : ℚ) - 1))
    linarith

theorem pdQuantile_eq (xs : List (Option ℚ)) (q : ℚ)
    (hne : (sortedVals xs).length ≠ 0) :
    pdQuantile xs q = some
      ((sortedVals xs).getD (Int.floor (q * (((sortedVals xs).length : ℚ) - 1))).toNat 0 +
        (q * (((sortedVals xs).length : ℚ) - 1) -
          (Int.floor (q * (((sortedVals xs).length : ℚ) - 1)) : ℚ)) *
        ((sortedVals xs).getD
            (min ((Int.floor (q * (((sortedVals xs).length : ℚ) - 1))).toNat + 1)
              ((sortedVals xs).length - 1)) 0 -
          (sortedVals xs).getD
            (Int.floor (q * (((sortedVals xs).length : ℚ) - 1))).toNat 0)) := by
  simp only [pdQuantile]
  rw [if_neg hne]

theorem pdQuantile_between (xs : List (Option ℚ)) (q m M : ℚ) (h0 : 0 ≤ q) (h1 : q ≤ 1)
    (hm : pdMin xs = some m) (hM : pdMax xs = some M) :
    ∃ y, pdQuantile xs q = some y ∧ m ≤ y ∧ y ≤ M := by
  have hlen : (sortedVals xs).length = (nonNull xs).length :=
    (List.perm_insertionSort _ _).length_eq
  have hne : (sortedVals xs).length ≠ 0 := by
    intro h0len
    have : nonNull xs = [] := List.length_eq_zero.mp (hlen ▸ h0len)
    rw [pdMin, this] at hm
    simp at hm
  have hn : 1 ≤ (sortedVals xs).length := Nat.one_le_iff_ne_zero.mpr hne
  obtain ⟨hj, hg0, hg1⟩ := quantile_index_facts q (sortedVals xs).length h0 h1 hn
  have hjn : (Int.floor (q * (((sortedVals xs).length : ℚ) - 1))).toNat <
      (sortedVals xs).length := by omega
  have hkn : min ((Int.floor (q * (((sortedVals xs).length : ℚ) - 1))).toNat + 1)
      ((sortedVals xs).length - 1) < (sortedVals xs).length := by omega
  have hlo_mem : (sortedVals xs).getD
      (Int.floor (q * (((sortedVals xs).length : ℚ) - 1))).toNat 0 ∈ nonNull xs :=
    (sortedVals_mem xs _).mp (getD_mem_of_lt hjn)
  have hhi_mem : (sortedVals xs).getD
      (min ((Int.floor (q * (((sortedVals xs).length : ℚ) - 1))).toNat + 1)
        ((sortedVals xs).length - 1)) 0 ∈ nonNull xs :=
    (sortedVals_mem xs _).mp (getD_mem_of_lt hkn)
  have hlohi : (sortedVals xs).getD
      (Int.floor (q * (((sortedVals xs).length : ℚ) - 1))).toNat 0 ≤
      (sortedVals xs).getD
        (min ((Int.floor (q * (((sortedVals xs).length : ℚ) - 1))).toNat + 1)
          ((sortedVals xs).length - 1)) 0 :=
    sorted_getD_mono (sortedVals_sorted xs) (by omega) hkn
  have hmlo := min?_le_all hm _ hlo_mem
  have hmhi := min?_le_all hm _ hhi_mem
  have hloM := le_max?_all hM _ hlo_mem
  have hhiM := le_max?_all hM _ hhi_mem
  refine ⟨_, pdQuantile_eq xs q hne, ?_, ?_⟩
  · nlinarith
  · nlinarith

theorem pdQuantile_mono (xs : List (Option ℚ)) (a b : ℚ) (h0 : 0 ≤ a) (hab : a ≤ b)
    (h1 : b ≤ 1) (hne : (sortedVals xs).length ≠ 0) :
    ∃ ya yb, pdQuantile xs a = some ya ∧ pdQuantile xs b = some yb ∧ ya ≤ yb := by
  have hn : 1 ≤ (sortedVals xs).length := Nat.one_le_iff_ne_zero.mpr hne
  have hn1 : (0 : ℚ) ≤ ((sortedVals xs).length : ℚ) - 1 := by
    have h : (1 : ℚ) ≤ ((sortedVals xs).length : ℚ) := by exact_mod_cast hn
    linarith
  obtain ⟨hja, hga0, hga1⟩ := quantile_index_facts a (sortedVals xs).length h0 (hab.trans h1) hn
  obtain ⟨hjb, hgb0, hgb1⟩ := quantile_index_facts b (sortedVals xs).length (h0.trans hab) h1 hn
  have hhab : a * (((sortedVals xs).length : ℚ) - 1) ≤
      b * (((sortedVals xs).length : ℚ) - 1) :=
    mul_le_mul_of_nonneg_right hab hn1
  have hfla0 : 0 ≤ Int.floor (a * (((sortedVals xs).length : ℚ) - 1)) :=
    Int.floor_nonneg.mpr (mul_nonneg h0 hn1)
  have hflb0 : 0 ≤ Int.floor (b * (((sortedVals xs).length : ℚ) - 1)) :=
    Int.floor_nonneg.mpr (mul_nonneg (h0.trans hab) hn1)
  have hjab : (Int.floor (a * (((sortedVals xs).length : ℚ) - 1))).toNat ≤
      (Int.floor (b * (((sortedVals xs).length : ℚ) - 1))).toNat :=
    Int.toNat_le_toNat (Int.floor_mono hhab)
  have hjbn : (Int.floor (b * (((sortedVals xs).length : ℚ) - 1))).toNat <
      (sortedVals xs).length := by omega
  have hjan : (Int.floor (a * (((sortedVals xs).length : ℚ) - 1))).toNat <
      (sortedVals xs).length := by omega
  have hkan : min ((Int.floor (a * (((sortedVals xs).length : ℚ) - 1))).toNat + 1)
      ((sortedVals xs).length - 1) < (sortedVals xs).length := by omega
  have hkbn : min ((Int.floor (b * (((sortedVals xs).length : ℚ) - 1))).toNat + 1)
      ((sortedVals xs).length - 1) < (sortedVals xs).length := by omega
  have hloa_hia : (sortedVals xs).getD
      (Int.floor (a * (((sortedVals xs).length : ℚ) - 1))).toNat 0 ≤
      (sortedVals xs).getD
        (min ((Int.floor (a * (((sortedVals xs).length : ℚ) - 1))).toNat + 1)
          ((sortedVals xs).length - 1)) 0 :=
    sorted_getD_mono (sortedVals_sorted xs) (by omega) hkan
  have hlob_hib : (sortedVals xs).getD
      (Int.floor (b * (((sortedVals xs).length : ℚ) - 1))).toNat 0 ≤
      (sortedVals xs).getD
        (min ((Int.floor (b * (((sortedVals xs).length : ℚ) - 1))).toNat + 1)
          ((sortedVals xs).length - 1)) 0 :=
    sorted_getD_mono (sortedVals_sorted xs) (by omega) hkbn
  refine ⟨_, _, pdQuantile_eq xs a hne, pdQuantile_eq xs b hne, ?_⟩
  rcases eq_or_lt_of_le hjab with heq | hlt
  · have hfleq : Int.floor (a * (((sortedVals xs).length : ℚ) - 1)) =
        Int.floor (b * (((sortedVals xs).length : ℚ) - 1)) := by
      omega
    rw [← heq, ← hfleq]
    have hgab : a * (((sortedVals xs).length : ℚ) - 1) -
        (Int.floor (a * (((sortedVals xs).length : ℚ) - 1)) : ℚ) ≤
        b * (((sortedVals xs).length : ℚ) - 1) -
        (Int.floor (a * (((sortedVals xs).length : ℚ) - 1)) : ℚ) := by
      linarith
    nlinarith
  · have hmid : min ((Int.floor (a * (((sortedVals xs).length : ℚ) - 1))).toNat + 1)
        ((sortedVals xs).length - 1) ≤
        (Int.floor (b * (((sortedVals xs).length : ℚ) - 1))).toNat := by
      omega
    have hbridge : (sortedVals xs).getD
        (min ((Int.floor (a * (((sortedVals xs).length : ℚ) - 1))).toNat + 1)
          ((sortedVals xs).length - 1)) 0 ≤
        (sortedVals xs).getD
          (Int.floor (b * (((sortedVals xs).length : ℚ) - 1))).toNat 0 :=
      sorted_getD_mono (sortedVals_sorted xs) hmid hjbn
    nlinarith

/-- C8: whenever the numeric profiler succeeds on a column and reports an
actual minimum (the column has a non-null value), the reported minimum is at
most each reported percentile (10th, 25th, 75th, 90th), each of those is at
most the reported maximum, and quartile 1 ≤ median ≤ quartile 3. -/
theorem numeric_stats_ordered (df : DataFrame) (col : String) (st : NumStats)
    (hok : numProfile df col = Except.ok st) (m : ℚ) (hmin : st.vmin = some m) :
    ∃ M y10 y25 y50 y75 y90,
      st.vmax = some M ∧ st.q10 = some y10 ∧ st.q25 = some y25 ∧ st.median = some y50 ∧
      st.q75 = some y75 ∧ st.q90 = some y90 ∧
      m ≤ y10 ∧ y10 ≤ M ∧ m ≤ y25 ∧ y25 ≤ M ∧ m ≤ y75 ∧ y75 ≤ M ∧ m ≤ y90 ∧ y90 ≤ M ∧
      y25 ≤ y50 ∧ y50 ≤ y75 := by
  match hcol : df.col? col with
  | none =>
    simp only [numProfile, hcol] at hok
    exact absurd hok (by simp)
  | some c =>
    simp only [numProfile, hcol] at hok
    by_cases hcat : c.dtype.isCategorical
    · rw [if_pos hcat] at hok
      exact absurd hok (by simp)
    · rw [if_neg hcat] at hok
      have hst := Except.ok.inj hok
      subst hst
      simp only at hmin ⊢
      have hmq : pdMin c.numValues = some m := hmin
      have hne' : nonNull c.numValues ≠ [] := by
        intro hemp
        rw [pdMin, hemp] at hmq
        simp at hmq
      have hlen : (sortedVals c.numValues).length = (nonNull c.numValues).length :=
        (List.perm_insertionSort _ _).length_eq
      have hne : (sortedVals c.numValues).length ≠ 0 := by
        rw [hlen]
        simpa using fun h => hne' (List.length_eq_zero.mp h)
      obtain ⟨M, hM⟩ : ∃ M, pdMax c.numValues = some M := by
        rw [pdMax]
        match hmx : (nonNull c.numValues).max? with
        | some M => exact ⟨M, rfl⟩
        | none =>
          exact absurd (List.max?_eq_none_iff.mp hmx) hne'
      obtain ⟨y10, h10, hm10, h10M⟩ :=
        pdQuantile_between c.numValues (1 / 10) m M (by norm_num) (by norm_num) hmq hM
      obtain ⟨y25, h25, hm25, h25M⟩ :=
        pdQuantile_between c.numValues (1 / 4) m M (by norm_num) (by norm_num) hmq hM
      obtain ⟨y75, h75, hm75, h75M⟩ :=
        pdQuantile_between c.numValues (3 / 4) m M (by norm_num) (by norm_num) hmq hM
      obtain ⟨y90, h90, hm90, h90M⟩ :=
        pdQuantile_between c.numValues (9 / 10) m M (by norm_num) (by norm_num) hmq hM
      obtain ⟨y25x, y50, h25x, h50, h2550⟩ :=
        pdQuantile_mono c.numValues (1 / 4) (1 / 2) (by norm_num) (by norm_num) (by norm_num)
          hne
      obtain ⟨y50x, y75x, h50x, h75x, h5075⟩ :=
        pdQuantile_mono c.numValues (1 / 2) (3 / 4) (by norm_num) (by norm_num) (by norm_num)
          hne
      have e1 : y25x = y25 := by
        rw [h25x] at h25
        exact (Option.some.injEq _ _).mp h25
      have e2 : y50x = y50 := by
        rw [h50x] at h50
        exact (Option.some.injEq _ _).mp h50
      have e3 : y75x = y75 := by
        rw [h75x] at h75
        exact (Option.some.injEq _ _).mp h75
      refine ⟨M, y10, y25, y50, y75, y90, hM, h10, h25, h50, h75, h90, hm10, h10M, hm25,
        h25M, hm75, h75M, hm90, h90M, ?_, ?_⟩
      · rw [← e1]
        exact h2550
      · rw [← e2, ← e3]
        exact h5075

theorem numeric_stats_ordered_witness :
    ∃ st m, numProfile (DataFrame.mk
        [("saleprice", Col.mk Dtype.int64
          [some (Value.int 3), some (Value.int 1), none, some (Value.int 2)])])
        "saleprice" = Except.ok st ∧ st.vmin = some m ∧
      ∃ M y10 y25 y50 y75 y90,
        st.vmax = some M ∧ st.q10 = some y10 ∧ st.q25 = some y25 ∧ st.median = some y50 ∧
        st.q75 = some y75 ∧ st.q90 = some y90 ∧
        m ≤ y10 ∧ y10 ≤ M ∧ m ≤ y25 ∧ y25 ≤ M ∧ m ≤ y75 ∧ y75 ≤ M ∧ m ≤ y90 ∧ y90 ≤ M ∧
        y25 ≤ y50 ∧ y50 ≤ y75 := by
  have hok : numProfile (DataFrame.mk
      [("saleprice", Col.mk Dtype.int64
        [some (Value.int 3), some (Value.int 1), none, some (Value.int 2)])])
      "saleprice" = Except.ok
      (NumStats.mk
        (missRate [some (Value.int 3), some (Value.int 1), none, some (Value.int 2)])
        (pdMax (Col.mk Dtype.int64
          [some (Value.int 3), some (Value.int 1), none, some (Value.int 2)]).numValues)
        (pdMin (Col.mk Dtype.int64
          [some (Value.int 3), some (Value.int 1), none, some (Value.int 2)]).numValues)
        (pdMean (Col.mk Dtype.int64
          [some (Value.int 3), some (Value.int 1), none, some (Value.int 2)]).numValues)
        (pdQuantile (Col.mk Dtype.int64
          [some (Value.int 3), some (Value.int 1), none, some (Value.int 2)]).numValues (1 / 2))
        (pdVar (Col.mk Dtype.int64
          [some (Value.int 3), some (Value.int 1), none, some (Value.int 2)]).numValues)
        (pdQuantile (Col.mk Dtype.int64
          [some (Value.int 3), some (Value.int 1), none, some (Value.int 2)]).numValues (1 / 10))
        (pdQuantile (Col.mk Dtype.int64
          [some (Value.int 3), some (Value.int 1), none, some (Value.int 2)]).numValues (9 / 10))
        (pdQuantile (Col.mk Dtype.int64
          [some (Value.int 3), some (Value.int 1), none, some (Value.int 2)]).numValues (1 / 4))
        (pdQuantile (Col.mk Dtype.int64
          [some (Value.int 3), some (Value.int 1), none, some (Value.int 2)]).numValues
          (3 / 4))) := rfl
  have hmin : pdMin (Col.mk Dtype.int64
      [some (Value.int 3), some (Value.int 1), none, some (Value.int 2)]).numValues =
      some 1 := rfl
  exact ⟨_, 1, hok, hmin, numeric_stats_ordered _ "saleprice" _ hok 1 hmin⟩

/-! ### Correlation table -/

theorem list_map_sum_eq {α : Type} (l : List α) (f : α → ℚ) (d : α) :
    (l.map f).sum = ∑ i in Finset.range l.length, f (l.getD i d) := by
  induction l with
  | nil => simp
  | cons a t ih =>
    rw [List.map_cons, List.sum_cons, ih, List.length_cons, Finset.sum_range_succ']
    simp [add_comm]

theorem list_cauchy_schwarz (l : List (ℚ × ℚ)) (f g : ℚ × ℚ → ℚ) :
    ((l.map fun p => f p * g p).sum) ^ 2 ≤
      ((l.map fun p => f p ^ 2).sum) * ((l.map fun p => g p ^ 2).sum) := by
  rw [list_map_sum_eq l _ (0, 0), list_map_sum_eq l _ (0, 0), list_map_sum_eq l _ (0, 0)]
  exact Finset.sum_mul_sq_le_sq_mul_sq _ _ _

theorem list_sq_sum_nonneg (l : List (ℚ × ℚ)) (f : ℚ × ℚ → ℚ) :
    0 ≤ (l.map fun p => f p ^ 2).sum := by
  refine List.sum_nonneg ?_
  intro x hx
  rw [List.mem_map] at hx
  obtain ⟨p, -, rfl⟩ := hx
  positivity

theorem sXX_nonneg (ps : List (ℚ × ℚ)) : 0 ≤ sXX ps :=
  list_sq_sum_nonneg ps _

theorem sYY_nonneg (ps : List (ℚ × ℚ)) : 0 ≤ sYY ps :=
  list_sq_sum_nonneg ps _

theorem sXY_sq_le (ps : List (ℚ × ℚ)) : sXY ps ^ 2 ≤ sXX ps * sYY ps :=
  list_cauchy_schwarz ps (fun p => p.1 - listMean (ps.map Prod.fst))
    (fun p => p.2 - listMean (ps.map Prod.snd))

theorem pairedRows_self (tv : List (Option ℚ)) :
    pairedRows tv tv = (nonNull tv).map fun a => (a, a) := by
  induction tv with
  | nil => rfl
  | cons x rest ih =>
    cases x <;> simpa [pairedRows, nonNull, List.filterMap_cons] using ih

theorem map_fst_diag (L : List ℚ) : ((L.map fun a => (a, a)).map Prod.fst) = L := by
  induction L with
  | nil => rfl
  | cons a t ih => simp only [List.map_cons, ih]

theorem map_snd_diag (L : List ℚ) : ((L.map fun a => (a, a)).map Prod.snd) = L := by
  induction L with
  | nil => rfl
  | cons a t ih => simp only [List.map_cons, ih]

theorem sXY_diag (L : List ℚ) :
    sXY (L.map fun a => (a, a)) = sXX (L.map fun a => (a, a)) := by
  unfold sXY sXX
  rw [map_fst_diag, map_snd_diag, List.map_map, List.map_map]
  refine congrArg List.sum (List.map_congr_left ?_)
  intro a _
  simp only [Function.comp]
  ring

theorem sYY_diag (L : List ℚ) :
    sYY (L.map fun a => (a, a)) = sXX (L.map fun a => (a, a)) := by
  unfold sYY sXX
  rw [map_fst_diag, map_snd_diag, List.map_map, List.map_map]
  refine congrArg List.sum (List.map_congr_left ?_)
  intro a _
  simp only [Function.comp]

theorem sXY_self (tv : List (Option ℚ)) :
    sXY (pairedRows tv tv) = sXX (pairedRows tv tv) := by
  rw [pairedRows_self]
  exact sXY_diag _

theorem sYY_self (tv : List (Option ℚ)) :
    sYY (pairedRows tv tv) = sXX (pairedRows tv tv) := by
  rw [pairedRows_self]
  exact sYY_diag _

theorem corrEntry_self (tv : List (Option ℚ)) (hS : sXX (pairedRows tv tv) ≠ 0) :
    ∃ hpos : 0 < sXX (pairedRows tv tv) * sXX (pairedRows tv tv),
      corrEntry tv tv =
        some ⟨(sXX (pairedRows tv tv),
          sXX (pairedRows tv tv) * sXX (pairedRows tv tv)), hpos⟩ := by
  have hS0 : 0 < sXX (pairedRows tv tv) :=
    lt_of_le_of_ne (sXX_nonneg _) (Ne.symm hS)
  refine ⟨mul_pos hS0 hS0, ?_⟩
  unfold corrEntry
  rw [sXY_self, sYY_self]
  rw [dif_pos (mul_pos hS0 hS0)]

theorem corrLe_total (a b : CorrVal) : corrLe a b ∨ corrLe b a := by
  rcases le_total a.val.1 0 with ha | ha
  · rcases le_total b.val.1 0 with hb | hb
    · rcases le_total (b.val.1 ^ 2 * a.val.2) (a.val.1 ^ 2 * b.val.2) with h | h
      · exact Or.inl (Or.inr (Or.inr ⟨ha, hb, h⟩))
      · exact Or.inr (Or.inr (Or.inr ⟨hb, ha, h⟩))
    · exact Or.inl (Or.inl ⟨ha, hb⟩)
  · rcases le_total b.val.1 0 with hb | hb
    · exact Or.inr (Or.inl ⟨hb, ha⟩)
    · rcases le_total (a.val.1 ^ 2 * b.val.2) (b.val.1 ^ 2 * a.val.2) with h | h
      · exact Or.inl (Or.inr (Or.inl ⟨ha, hb, h⟩))
      · exact Or.inr (Or.inr (Or.inl ⟨hb, ha, h⟩))

theorem sq_term_zero {x d : ℚ} (hd : 0 < d) (h : x ^ 2 * d ≤ 0) : x = 0 := by
  have h2 : x ^ 2 ≤ 0 := by
    by_contra hpos
    push_neg at hpos
    nlinarith
  exact sq_eq_zero_iff.mp (le_antisymm h2 (sq_nonneg _))

theorem corrLe_trans (a b c : CorrVal) (hab : corrLe a b) (hbc : corrLe b c) :
    corrLe a c := by
  have ha2 := a.property
  have hb2 := b.property
  have hc2 := c.property
  rcases hab with ⟨ha1, hb1⟩ | ⟨ha1, hb1, hi⟩ | ⟨ha1, hb1, hi⟩ <;>
    rcases hbc with ⟨hb1', hc1⟩ | ⟨hb1', hc1, hj⟩ | ⟨hb1', hc1, hj⟩
  · exact Or.inl ⟨ha1, hc1⟩
  · exact Or.inl ⟨ha1, hc1⟩
  · have hb0 : b.val.1 = 0 := le_antisymm hb1' hb1
    rw [hb0] at hj
    have hj' : c.val.1 ^ 2 * b.val.2 ≤ 0 := by nlinarith
    have hc0 : c.val.1 = 0 := sq_term_zero hb2 hj'
    exact Or.inl ⟨ha1, le_of_eq hc0.symm⟩
  · have hb0 : b.val.1 = 0 := le_antisymm hb1' hb1
    rw [hb0] at hi
    have hi' : a.val.1 ^ 2 * b.val.2 ≤ 0 := by nlinarith
    have ha0 : a.val.1 = 0 := sq_term_zero hb2 hi'
    exact Or.inl ⟨le_of_eq ha0, hc1⟩
  · refine Or.inr (Or.inl ⟨ha1, hc1, ?_⟩)
    have h3 : a.val.1 ^ 2 * b.val.2 * c.val.2 ≤ b.val.1 ^ 2 * a.val.2 * c.val.2 :=
      mul_le_mul_of_nonneg_right hi hc2.le
    have h4 : b.val.1 ^ 2 * c.val.2 * a.val.2 ≤ c.val.1 ^ 2 * b.val.2 * a.val.2 :=
      mul_le_mul_of_nonneg_right hj ha2.le
    have h5 : a.val.1 ^ 2 * c.val.2 * b.val.2 ≤ c.val.1 ^ 2 * a.val.2 * b.val.2 := by
      nlinarith
    exact (mul_le_mul_right hb2).mp h5
  · have hb0 : b.val.1 = 0 := le_antisymm hb1' hb1
    rw [hb0] at hi hj
    have hi' : a.val.1 ^ 2 * b.val.2 ≤ 0 := by nlinarith
    have hj' : c.val.1 ^ 2 * b.val.2 ≤ 0 := by nlinarith
    have ha0 : a.val.1 = 0 := sq_term_zero hb2 hi'
    have hc0 : c.val.1 = 0 := sq_term_zero hb2 hj'
    exact Or.inl ⟨le_of_eq ha0, le_of_eq hc0.symm⟩
  · exact Or.inl ⟨ha1, hc1⟩
  · exact Or.inl ⟨ha1, hc1⟩
  · refine Or.inr (Or.inr ⟨ha1, hc1, ?_⟩)
    have h3 : c.val.1 ^ 2 * b.val.2 * a.val.2 ≤ b.val.1 ^ 2 * c.val.2 * a.val.2 :=
      mul_le_mul_of_nonneg_right hj ha2.le
    have h4 : b.val.1 ^ 2 * a.val.2 * c.val.2 ≤ a.val.1 ^ 2 * b.val.2 * c.val.2 :=
      mul_le_mul_of_nonneg_right hi hc2.le
    have h5 : c.val.1 ^ 2 * a.val.2 * b.val.2 ≤ a.val.1 ^ 2 * c.val.2 * b.val.2 := by
      nlinarith
    exact (mul_le_mul_right hb2).mp h5

theorem entryGe_none_right (x : Option CorrVal) : entryGe x none := by
  cases x <;> trivial

theorem entryGe_some_iff (a b : CorrVal) : entryGe (some a) (some b) ↔ corrLe b a :=
  Iff.rfl

instance : IsTotal (String × Option CorrVal) entryRel := by
  refine ⟨fun p q => ?_⟩
  unfold entryRel
  rcases hq : q.2 with - | b
  · exact Or.inl (entryGe_none_right _)
  · rcases hp : p.2 with - | a
    · exact Or.inr (entryGe_none_right _)
    · rcases corrLe_total a b with h | h
      · exact Or.inr h
      · exact Or.inl h

instance : IsTrans (String × Option CorrVal) entryRel := by
  refine ⟨fun p q r h1 h2 => ?_⟩
  unfold entryRel at h1 h2 ⊢
  rcases hr : r.2 with - | cR
  · exact entryGe_none_right _
  · rw [hr] at h2
    rcases hq : q.2 with - | cQ
    · rw [hq] at h2
      exact absurd h2 (fun h => h)
    · rw [hq] at h1 h2
      rcases hp : p.2 with - | cP
      · rw [hp] at h1
        exact absurd h1 (fun h => h)
      · rw [hp] at h1
        exact corrLe_trans cR cQ cP h2 h1

theorem lookup_mem {α β : Type} [BEq α] [LawfulBEq α] :
    ∀ {l : List (α × β)} {a : α} {b : β}, l.lookup a = some b → (a, b) ∈ l := by
  intro l
  induction l with
  | nil =>
    intro a b h
    simp [List.lookup] at h
  | cons p rest ih =>
    intro a b h
    obtain ⟨k, v⟩ := p
    by_cases hak : a = k
    · subst hak
      simp [List.lookup] at h
      subst h
      exact List.mem_cons_self _ _
    · rw [List.lookup] at h
      rw [show (a == k) = false from beq_eq_false_iff_ne.mpr hak] at h
      exact List.mem_cons_of_mem _ (ih h)

theorem corrLe_antisymm_one {S : ℚ} (hS0 : 0 < S) (hpos : 0 < S * S) (b : CorrVal)
    (h1 : corrLe ⟨(S, S * S), hpos⟩ b) (h2 : corrLe b ⟨(S, S * S), hpos⟩) :
    0 < b.val.1 ∧ b.val.1 ^ 2 = b.val.2 := by
  have hb2 := b.property
  unfold corrLe at h1 h2
  have e1 : (⟨(S, S * S), hpos⟩ : CorrVal).val.1 = S := rfl
  have e2 : (⟨(S, S * S), hpos⟩ : CorrVal).val.2 = S * S := rfl
  rw [e1, e2] at h1 h2
  rcases h1 with ⟨hle, -⟩ | ⟨-, hb1, hk1⟩ | ⟨hle, -, -⟩
  · exact absurd hle (not_le.mpr hS0)
  · rcases h2 with ⟨hb1', -⟩ | ⟨hb1'', -, hk2⟩ | ⟨-, hle, -⟩
    · have hb0 : b.val.1 = 0 := le_antisymm hb1' hb1
      rw [hb0] at hk1
      exfalso
      nlinarith
    · have heq : S ^ 2 * b.val.2 = b.val.1 ^ 2 * (S * S) := le_antisymm hk1 hk2
      have hS2 : S ^ 2 ≠ 0 := pow_ne_zero 2 hS0.ne'
      have hcancel : S ^ 2 * b.val.2 = S ^ 2 * b.val.1 ^ 2 := by
        rw [heq]
        ring
      have hb2eq : b.val.2 = b.val.1 ^ 2 := mul_left_cancel₀ hS2 hcancel
      refine ⟨?_, hb2eq.symm⟩
      rcases lt_or_eq_of_le hb1 with h | h
      · exact h
      · exfalso
        rw [← h] at hb2eq
        rw [hb2eq] at hb2
        simp at hb2
    · exact absurd hle (not_le.mpr hS0)
  · exact absurd hle (not_le.mpr hS0)

/-- C6 (amended): for every table whose target column is numeric and has a
non-degenerate self sample (nonzero centred square sum over its non-null
rows), the correlation series contains the target's self-correlation entry,
that entry equals 1.0, no entry of the series exceeds it, and the first
entry of the descending-sorted output also equals 1.0 (it is the target's
own entry unless another column is perfectly correlated and ties at 1.0;
with a degenerate target sample the self entry is NaN instead of 1.0). -/
theorem correlation_selfcorr_amended (df : DataFrame) (target : String)
    (tv : List (Option ℚ)) (hlk : (numericCols df).lookup target = some tv)
    (hS : sXX (pairedRows tv tv) ≠ 0) :
    ∃ out c, correlation_table df target = Except.ok out ∧
      corrEntry tv tv = some c ∧ entryIsOne (some c) ∧
      (target, some c) ∈ out ∧
      (∀ p ∈ out, entryGe (some c) p.2) ∧
      (∃ hd, out.head? = some hd ∧ entryIsOne hd.2) := by
  obtain ⟨hpos, hself⟩ := corrEntry_self tv hS
  have hS0 : 0 < sXX (pairedRows tv tv) :=
    lt_of_le_of_ne (sXX_nonneg _) (Ne.symm hS)
  have htab : correlation_table df target =
      Except.ok (List.insertionSort entryRel
        ((numericCols df).map fun p => (p.1, corrEntry tv p.2))) := by
    simp only [correlation_table, hlk]
  have hmemself : (target,
      some (⟨(sXX (pairedRows tv tv), sXX (pairedRows tv tv) * sXX (pairedRows tv tv)),
        hpos⟩ : CorrVal)) ∈ (numericCols df).map fun p => (p.1, corrEntry tv p.2) := by
    refine List.mem_map.mpr ⟨(target, tv), lookup_mem hlk, ?_⟩
    rw [← hself]
  have hone : entryIsOne (some
      (⟨(sXX (pairedRows tv tv), sXX (pairedRows tv tv) * sXX (pairedRows tv tv)),
        hpos⟩ : CorrVal)) := by
    refine ⟨_, rfl, hS0, by ring⟩
  have hdom : ∀ p ∈ (numericCols df).map fun p => (p.1, corrEntry tv p.2),
      entryGe (some (⟨(sXX (pairedRows tv tv),
        sXX (pairedRows tv tv) * sXX (pairedRows tv tv)), hpos⟩ : CorrVal)) p.2 := by
    intro p hp
    obtain ⟨⟨name, yv⟩, hmem, rfl⟩ := List.mem_map.mp hp
    unfold corrEntry
    by_cases hd : 0 < sXX (pairedRows tv yv) * sYY (pairedRows tv yv)
    · rw [dif_pos hd]
      rw [entryGe_some_iff]
      rcases le_or_lt 0 (sXY (pairedRows tv yv)) with hpos' | hneg
      · refine Or.inr (Or.inl ⟨hpos', hS0.le, ?_⟩)
        have hcs := sXY_sq_le (pairedRows tv yv)
        have hmul := mul_le_mul_of_nonneg_right hcs (sq_nonneg (sXX (pairedRows tv tv)))
        show sXY (pairedRows tv yv) ^ 2 *
            (sXX (pairedRows tv tv) * sXX (pairedRows tv tv)) ≤
          sXX (pairedRows tv tv) ^ 2 *
            (sXX (pairedRows tv yv) * sYY (pairedRows tv yv))
        nlinarith
      · exact Or.inl ⟨hneg.le, hS0.le⟩
    · rw [dif_neg hd]
      exact entryGe_none_right _
  refine ⟨_, _, htab, hself, hone, ?_, ?_, ?_⟩
  · exact (List.mem_insertionSort entryRel).mpr hmemself
  · intro p hp
    exact hdom p ((List.mem_insertionSort entryRel).mp hp)
  · have hne : List.insertionSort entryRel
        ((numericCols df).map fun p => (p.1, corrEntry tv p.2)) ≠ [] :=
      List.ne_nil_of_mem ((List.mem_insertionSort entryRel).mpr hmemself)
    obtain ⟨hd, tl, hcons⟩ := List.exists_cons_of_ne_nil hne
    refine ⟨hd, by rw [hcons]; rfl, ?_⟩
    have hsorted := List.sorted_insertionSort entryRel
      ((numericCols df).map fun p => (p.1, corrEntry tv p.2))
    rw [hcons] at hsorted
    have hself_in : (target,
        some (⟨(sXX (pairedRows tv tv), sXX (pairedRows tv tv) * sXX (pairedRows tv tv)),
          hpos⟩ : CorrVal)) ∈ hd :: tl := by
      rw [← hcons]
      exact (List.mem_insertionSort entryRel).mpr hmemself
    rcases List.mem_cons.mp hself_in with heq | hin
    · rw [← heq]
      exact hone
    · have h1 : entryRel hd (target,
          some (⟨(sXX (pairedRows tv tv), sXX (pairedRows tv tv) * sXX (pairedRows tv tv)),
            hpos⟩ : CorrVal)) := List.rel_of_sorted_cons hsorted _ hin
      have hhd_in : hd ∈ (numericCols df).map fun p => (p.1, corrEntry tv p.2) := by
        rw [← List.mem_insertionSort entryRel (l := (numericCols df).map
          fun p => (p.1, corrEntry tv p.2)), hcons]
        exact List.mem_cons_self _ _
      have h2 := hdom hd hhd_in
      unfold entryRel at h1
      rcases hhd : hd.2 with - | b
      · rw [hhd] at h1
        exact absurd h1 (fun h => h)
      · rw [hhd] at h1 h2
        rw [entryGe_some_iff] at h1 h2
        obtain ⟨hb1, hb2⟩ := corrLe_antisymm_one hS0 hpos b h1 h2
        exact ⟨b, rfl, hb1, hb2⟩

theorem correlation_selfcorr_amended_witness :
    ∃ out c, correlation_table (DataFrame.mk
        [("acreage", Col.mk Dtype.float64 [some (Value.float 1), some (Value.float 2)]),
         ("saleprice", Col.mk Dtype.int64 [some (Value.int 1), some (Value.int 3)])])
        "saleprice" = Except.ok out ∧
      corrEntry (Col.mk Dtype.int64
          [some (Value.int 1), some (Value.int 3)]).numValues
        (Col.mk Dtype.int64 [some (Value.int 1), some (Value.int 3)]).numValues = some c ∧
      entryIsOne (some c) ∧
      ("saleprice", some c) ∈ out ∧
      (∀ p ∈ out, entryGe (some c) p.2) ∧
      (∃ hd, out.head? = some hd ∧ entryIsOne hd.2) := by
  refine correlation_selfcorr_amended _ "saleprice"
    (Col.mk Dtype.int64 [some (Value.int 1), some (Value.int 3)]).numValues rfl ?_
  have hps : pairedRows (Col.mk Dtype.int64
      [some (Value.int 1), some (Value.int 3)]).numValues
      (Col.mk Dtype.int64 [some (Value.int 1), some (Value.int 3)]).numValues =
      [(((1 : ℤ) : ℚ), ((1 : ℤ) : ℚ)), (((3 : ℤ) : ℚ), ((3 : ℤ) : ℚ))] := rfl
  rw [hps]
  norm_num [sXX, listMean]

/-- C6 counterexample: a table whose numeric target column is constant (two
equal sale prices).  The target column is present and numeric, yet its
self-correlation cell — like every cell of the series — is the NaN cell
(none), not 1.0, and no 1.0 entry leads the sorted output. -/
theorem correlation_selfcorr_claim_false :
    correlation_table (DataFrame.mk
        [("acreage", Col.mk Dtype.float64 [some (Value.float 1), some (Value.float 2)]),
         ("saleprice", Col.mk Dtype.int64 [some (Value.int 5), some (Value.int 5)])])
        "saleprice" =
      Except.ok [("acreage", (none : Option CorrVal)), ("saleprice", none)] ∧
    ¬ entryIsOne (none : Option CorrVal) := by
  constructor
  · have hXXself : sXX (pairedRows (Col.mk Dtype.int64
        [some (Value.int 5), some (Value.int 5)]).numValues
        (Col.mk Dtype.int64 [some (Value.int 5), some (Value.int 5)]).numValues) = 0 := by
      have hps : pairedRows (Col.mk Dtype.int64
          [some (Value.int 5), some (Value.int 5)]).numValues
          (Col.mk Dtype.int64 [some (Value.int 5), some (Value.int 5)]).numValues =
          [(((5 : ℤ) : ℚ), ((5 : ℤ) : ℚ)), (((5 : ℤ) : ℚ), ((5 : ℤ) : ℚ))] := rfl
      rw [hps]
      norm_num [sXX, listMean]
    have hXXcross : sXX (pairedRows (Col.mk Dtype.int64
        [some (Value.int 5), some (Value.int 5)]).numValues
        (Col.mk Dtype.float64 [some (Value.float 1), some (Value.float 2)]).numValues) =
        0 := by
      have hps : pairedRows (Col.mk Dtype.int64
          [some (Value.int 5), some (Value.int 5)]).numValues
          (Col.mk Dtype.float64
            [some (Value.float 1), some (Value.float 2)]).numValues =
          [(((5 : ℤ) : ℚ), (1 : ℚ)), (((5 : ℤ) : ℚ), (2 : ℚ))] := rfl
      rw [hps]
      norm_num [sXX, listMean]
    have hc1 : corrEntry (Col.mk Dtype.int64
        [some (Value.int 5), some (Value.int 5)]).numValues
        (Col.mk Dtype.int64 [some (Value.int 5), some (Value.int 5)]).numValues = none := by
      unfold corrEntry
      rw [dif_neg]
      rw [hXXself]
      simp
    have hc2 : corrEntry (Col.mk Dtype.int64
        [some (Value.int 5), some (Value.int 5)]).numValues
        (Col.mk Dtype.float64 [some (Value.float 1), some (Value.float 2)]).numValues =
        none := by
      unfold corrEntry
      rw [dif_neg]
      rw [hXXcross]
      simp
    have hlk : (numericCols (DataFrame.mk
        [("acreage", Col.mk Dtype.float64 [some (Value.float 1), some (Value.float 2)]),
         ("saleprice", Col.mk Dtype.int64
           [some (Value.int 5), some (Value.int 5)])])).lookup "saleprice" =
        some (Col.mk Dtype.int64 [some (Value.int 5), some (Value.int 5)]).numValues :=
      rfl
    simp only [correlation_table, hlk]
    rw [show numericCols (DataFrame.mk
        [("acreage", Col.mk Dtype.float64 [some (Value.float 1), some (Value.float 2)]),
         ("saleprice", Col.mk Dtype.int64 [some (Value.int 5), some (Value.int 5)])]) =
      [("acreage", (Col.mk Dtype.float64
          [some (Value.float 1), some (Value.float 2)]).numValues),
       ("saleprice", (Col.mk Dtype.int64
          [some (Value.int 5), some (Value.int 5)]).numValues)] from rfl]
    simp only [List.map_cons, List.map_nil]
    rw [hc1, hc2]
    simp [List.insertionSort, List.orderedInsert, entryRel, entryGe]
  · intro h
    obtain ⟨c, hc, -, -⟩ := h
    exact Option.noConfusion hc

end NashvilleEDA
